import Mathlib

/-!
Verification of the EasyDel distributed attention / caching / sharding
subsystem against its natural-language specification.

Shallow embedding of the relevant source functions:
* `src/lib/python/EasyDel/modules/falcon/modelling_falcon_flax.py`
  (`FlaxFalconAttention._concatenate_to_cache`, `built_bloom_alibi`,
  `FalconConfig.add_jax_args`, `FlaxFalconPretrainedModel.__call__`)
* `src/lib/python/EasyDel/modules/mistral/modelling_mistral_flax.py`
  (`FlaxMistralAttention.concatenate_to_cache_`,
  `FlaxMistralPretrainedModel.__call__`)
* `src/lib/python/EasyDel/modules/flax_modelling_utils.py`
  (`get_names_from_partition_spec`, `names_in_mesh`,
  `with_sharding_constraint`, `get_flash_attention`,
  `smart_flash_attention`, `create_mesh`)
* `src/lib/python/EasyDel/transform/easydel_transform.py`
  (`match_keywords`, `huggingface_to_easydel`)
-/

namespace EasyDelVerify

/-! ## Incremental decode KV cache (Falcon `_concatenate_to_cache`,
Mistral `concatenate_to_cache_`)

The cached key / value buffers have shape `[batch, max_length,
num_kv_heads, head_dim]`; every cache operation indexes only the sequence
axis (axis 1): `lax.dynamic_update_slice(buffer, update, (0, cur, 0, 0))`
writes the update's full batch/head/dim extent at sequence offset `cur`.
We therefore model a buffer as a list along the sequence axis whose
entries (type `α`) stand for one sequence position's
`[batch, num_kv_heads, head_dim]` cross-section.

`jax.lax.dynamic_update_slice` is total: its documented semantics clamp
the start index into `[0, operand_length - update_length]`, so an
out-of-range write is silently clipped into the buffer instead of
raising. `dynamicUpdateSliceSeq` embeds exactly that semantics along the
sequence axis (the start index is a natural number here, so only the
upper clamp is live). -/

def dynamicUpdateSliceSeq {α : Type} (operand update : List α) (start : ℕ) : List α :=
  operand.take (min start (operand.length - update.length)) ++ update ++
    operand.drop (min start (operand.length - update.length) + update.length)

/-- Per-layer cache state: `cached_key`, `cached_value` (sequence-axis
buffers) and the integer cursor `cache_index`, exactly the three
variables of the "cache" collection in the source. -/
structure KVCache (α : Type) where
  cachedKey : List α
  cachedValue : List α
  cacheIndex : ℕ
  deriving Repr, DecidableEq

/-- The `is_initialized` branch of Falcon's `_concatenate_to_cache`
(Mistral's `concatenate_to_cache_` is line-for-line the same): write the
new key/value slice at offset `cache_index` by dynamic slice update,
advance the cursor by `num_updated_cache_vectors = query.shape[1]`
(`queryLen`, which equals the step length in decoding), and AND the
recomputed pad mask `arange(max_length) < cur_index + queryLen` into the
caller's attention mask. -/
def concatenateToCache {α : Type} (c : KVCache α) (key value : List α)
    (queryLen : ℕ) (attentionMask : List Bool) : KVCache α × List Bool :=
  let maxLength := c.cachedKey.length
  let newKey := dynamicUpdateSliceSeq c.cachedKey key c.cacheIndex
  let newValue := dynamicUpdateSliceSeq c.cachedValue value c.cacheIndex
  let padMask := (List.range maxLength).map (fun i => decide (i < c.cacheIndex + queryLen))
  (⟨newKey, newValue, c.cacheIndex + queryLen⟩,
    List.zipWith (fun a b => a && b) padMask attentionMask)

/-- `init_cache(batch_size, max_length)`: zero-filled buffers of
sequence length `max_length` (`z` is the zero cross-section) and a zero
cursor. -/
def initCache {α : Type} (maxLength : ℕ) (z : α) : KVCache α :=
  ⟨List.replicate maxLength z, List.replicate maxLength z, 0⟩

/-- A sequence of decode steps of step length 1: each step feeds one
newly computed key/value cross-section through the initialized-cache
branch of `_concatenate_to_cache` (the attention-mask output is not part
of the cache state and is dropped here). -/
def decodeSteps {α : Type} (c : KVCache α) (steps : List (α × α)) : KVCache α :=
  steps.foldl
    (fun acc kv =>
      (concatenateToCache acc [kv.1] [kv.2] 1 (List.replicate acc.cachedKey.length true)).1)
    c

theorem dynamicUpdateSliceSeq_length {α : Type} (operand update : List α) (start : ℕ)
    (h : update.length ≤ operand.length) :
    (dynamicUpdateSliceSeq operand update start).length = operand.length := by
  unfold dynamicUpdateSliceSeq
  simp only [List.length_append, List.length_take, List.length_drop]
  omega

theorem dynamicUpdateSliceSeq_of_le {α : Type} (operand update : List α) (start : ℕ)
    (h : start + update.length ≤ operand.length) :
    dynamicUpdateSliceSeq operand update start =
      operand.take start ++ update ++ operand.drop (start + update.length) := by
  unfold dynamicUpdateSliceSeq
  rw [show min start (operand.length - update.length) = start from by omega]

theorem decodeSteps_spec {α : Type} (steps : List (α × α)) :
    ∀ (c : KVCache α),
      c.cachedValue.length = c.cachedKey.length →
      c.cacheIndex + steps.length ≤ c.cachedKey.length →
      (decodeSteps c steps).cacheIndex = c.cacheIndex + steps.length ∧
      (decodeSteps c steps).cachedKey =
        c.cachedKey.take c.cacheIndex ++ steps.map Prod.fst ++
          c.cachedKey.drop (c.cacheIndex + steps.length) ∧
      (decodeSteps c steps).cachedKey.length = c.cachedKey.length := by
  induction steps with
  | nil =>
    intro c _ hle
    refine ⟨by simp [decodeSteps], ?_, by simp [decodeSteps]⟩
    simp only [decodeSteps, List.foldl_nil, List.map_nil, List.append_nil, Nat.add_zero]
    exact (List.take_append_drop c.cacheIndex c.cachedKey).symm
  | cons kv rest ih =>
    intro c hv hle
    simp only [List.length_cons] at hle
    have hstep : c.cacheIndex + 1 ≤ c.cachedKey.length := by omega
    have hkey : dynamicUpdateSliceSeq c.cachedKey [kv.1] c.cacheIndex =
        c.cachedKey.take c.cacheIndex ++ [kv.1] ++ c.cachedKey.drop (c.cacheIndex + 1) := by
      simpa using dynamicUpdateSliceSeq_of_le c.cachedKey [kv.1] c.cacheIndex (by simpa using hstep)
    set c' : KVCache α :=
      (concatenateToCache c [kv.1] [kv.2] 1 (List.replicate c.cachedKey.length true)).1 with hc'
    have hck : c'.cachedKey = c.cachedKey.take c.cacheIndex ++ [kv.1] ++
        c.cachedKey.drop (c.cacheIndex + 1) := by
      simpa [hc', concatenateToCache] using hkey
    have hcklen : c'.cachedKey.length = c.cachedKey.length := by
      rw [hck]
      simp only [List.length_append, List.length_take, List.length_cons, List.length_nil,
        List.length_drop]
      omega
    have hcvlen : c'.cachedValue.length = c'.cachedKey.length := by
      have : c'.cachedValue = dynamicUpdateSliceSeq c.cachedValue [kv.2] c.cacheIndex := by
        simp [hc', concatenateToCache]
      rw [this, hcklen, dynamicUpdateSliceSeq_length _ _ _ (by simp; omega)]
      exact hv
    have hcidx : c'.cacheIndex = c.cacheIndex + 1 := by
      simp [hc', concatenateToCache]
    have hrest : c'.cacheIndex + rest.length ≤ c'.cachedKey.length := by
      rw [hcidx, hcklen]; omega
    have hfold : decodeSteps c (kv :: rest) = decodeSteps c' rest := by
      simp [decodeSteps, hc']
    obtain ⟨h1, h2, h3⟩ := ih c' hcvlen hrest
    rw [hfold]
    refine ⟨?_, ?_, by rw [h3, hcklen]⟩
    · rw [h1, hcidx]
      simp only [List.length_cons]
      omega
    rw [h2, hcidx, hck]
    have hlen₁ : (c.cachedKey.take c.cacheIndex).length = c.cacheIndex := by
      simp only [List.length_take]; omega
    -- take (idx+1) of (take idx ++ [k] ++ drop (idx+1)) is take idx ++ [k]
    have htake : (c.cachedKey.take c.cacheIndex ++ [kv.1] ++
        c.cachedKey.drop (c.cacheIndex + 1)).take (c.cacheIndex + 1) =
        c.cachedKey.take c.cacheIndex ++ [kv.1] := by
      conv_lhs => rw [List.append_assoc]
      rw [show c.cacheIndex + 1 = (c.cachedKey.take c.cacheIndex).length + 1 from by rw [hlen₁],
        List.take_append]
      simp
    -- drop (idx+1+r) of (take idx ++ [k] ++ drop (idx+1)) is drop (idx+1+r)
    have hdrop : (c.cachedKey.take c.cacheIndex ++ [kv.1] ++
        c.cachedKey.drop (c.cacheIndex + 1)).drop (c.cacheIndex + 1 + rest.length) =
        c.cachedKey.drop (c.cacheIndex + 1 + rest.length) := by
      conv_lhs =>
        rw [List.append_assoc,
          show c.cacheIndex + 1 + rest.length =
            (c.cachedKey.take c.cacheIndex).length + (1 + rest.length) from by rw [hlen₁]; omega,
          List.drop_append]
      rw [show (1 : ℕ) + rest.length = ([kv.1] : List α).length + rest.length from by simp]
      rw [List.drop_append, List.drop_drop]
    rw [htake, hdrop,
      show c.cacheIndex + 1 + rest.length = c.cacheIndex + (kv :: rest).length from by
        simp only [List.length_cons]; omega]
    simp [List.append_assoc]

/-- C1 (Cache monotonicity): for every initialized cache of buffer
length `maxLength` and every list of `N ≤ maxLength` single-step
key/value slices, folding the decode steps leaves `cache_index = N` and
the first `N` sequence positions of `cached_key` equal to the per-step
keys in order. -/
theorem cache_decode_monotonic {α : Type} (maxLength : ℕ) (z : α)
    (steps : List (α × α)) (h : steps.length ≤ maxLength) :
    (decodeSteps (initCache maxLength z) steps).cacheIndex = steps.length ∧
    ∀ i : ℕ, i < steps.length →
      (decodeSteps (initCache maxLength z) steps).cachedKey[i]? =
        (steps.map Prod.fst)[i]? := by
  obtain ⟨h1, h2, _⟩ := decodeSteps_spec steps (initCache maxLength z)
    (by simp [initCache]) (by simp [initCache]; omega)
  refine ⟨by simpa [initCache] using h1, fun i hi => ?_⟩
  rw [h2]
  simp only [initCache, List.take_zero, List.nil_append, Nat.zero_add]
  rw [List.getElem?_append_left]
  simpa using hi

/-- C1 witness: two decode steps into a length-3 cache. -/
theorem cache_decode_monotonic_witness :
    ([((10 : ℕ), (20 : ℕ)), (30, 40)].length ≤ 3) ∧
    ((decodeSteps (initCache 3 (0 : ℕ)) [((10 : ℕ), (20 : ℕ)), (30, 40)]).cacheIndex = 2 ∧
      ∀ i : ℕ, i < ([((10 : ℕ), (20 : ℕ)), (30, 40)]).length →
        (decodeSteps (initCache 3 (0 : ℕ)) [((10 : ℕ), (20 : ℕ)), (30, 40)]).cachedKey[i]? =
          (([((10 : ℕ), (20 : ℕ)), (30, 40)]).map Prod.fst)[i]?) :=
  ⟨by decide, cache_decode_monotonic 3 0 [(10, 20), (30, 40)] (by decide)⟩

/-- C5 (unguarded cache overflow): when `cache_index + step_len >
max_length`, the step still goes through — `dynamic_update_slice` clamps
the start index to `max_length - step_len`, so the write is silently
clipped to the tail of the buffer, the buffer keeps its length, and the
cursor still advances (past `max_length`, unguarded). -/
theorem cache_overflow_clips {α : Type} (c : KVCache α) (key value : List α)
    (queryLen : ℕ) (mask : List Bool)
    (hlen : key.length ≤ c.cachedKey.length)
    (hover : c.cachedKey.length < c.cacheIndex + key.length) :
    (concatenateToCache c key value queryLen mask).1.cachedKey =
      c.cachedKey.take (c.cachedKey.length - key.length) ++ key ∧
    (concatenateToCache c key value queryLen mask).1.cachedKey.length = c.cachedKey.length ∧
    (concatenateToCache c key value queryLen mask).1.cacheIndex = c.cacheIndex + queryLen := by
  refine ⟨?_, ?_, rfl⟩
  · show dynamicUpdateSliceSeq c.cachedKey key c.cacheIndex = _
    unfold dynamicUpdateSliceSeq
    rw [show min c.cacheIndex (c.cachedKey.length - key.length) =
        c.cachedKey.length - key.length from by omega,
      show c.cachedKey.length - key.length + key.length = c.cachedKey.length from by omega]
    simp
  · exact dynamicUpdateSliceSeq_length _ _ _ hlen

/-- C5 witness: a full length-2 cache (cursor 2) given one more slice:
the write is clipped to the last position, no failure. -/
theorem cache_overflow_clips_witness :
    (([(5 : ℕ)]).length ≤ (⟨[10, 20], [11, 21], 2⟩ : KVCache ℕ).cachedKey.length) ∧
    ((⟨[10, 20], [11, 21], 2⟩ : KVCache ℕ).cachedKey.length <
      (⟨[10, 20], [11, 21], 2⟩ : KVCache ℕ).cacheIndex + ([(5 : ℕ)]).length) ∧
    ((concatenateToCache (⟨[10, 20], [11, 21], 2⟩ : KVCache ℕ) [5] [6] 1 [true, true]).1.cachedKey =
        ([10, 20] : List ℕ).take (([10, 20] : List ℕ).length - 1) ++ [5] ∧
      (concatenateToCache (⟨[10, 20], [11, 21], 2⟩ : KVCache ℕ) [5] [6] 1
          [true, true]).1.cachedKey.length = ([10, 20] : List ℕ).length ∧
      (concatenateToCache (⟨[10, 20], [11, 21], 2⟩ : KVCache ℕ) [5] [6] 1
          [true, true]).1.cacheIndex = 2 + 1) :=
  ⟨by decide, by decide,
    cache_overflow_clips (⟨[10, 20], [11, 21], 2⟩ : KVCache ℕ) [5] [6] 1 [true, true]
      (by decide) (by decide)⟩

/-! ## Attention dispatcher (`get_flash_attention`, `smart_flash_attention`)

The two kernels the dispatcher can hand back are externals
(`fjformer.attention.ring_flash_attention_gpu`,
`fjformer.attention.tpu_flash_attention` /
`jax_flash_attn_tpu.flash_attention`); only which one is selected, and
how it is invoked, is modelled. -/

inductive FlashKernelFn where
  | ringFlashAttentionGpu
  | tpuFlashAttention
  deriving Repr, DecidableEq

/-- `get_flash_attention()`: maps the active platform string to
`(kernel, float32_logits, do_shard_map)` or raises for any other
platform. -/
def getFlashAttention (platform : String) : Except String (FlashKernelFn × Bool × Bool) :=
  if platform = "gpu" then .ok (.ringFlashAttentionGpu, false, true)
  else if platform = "tpu" then .ok (.tpuFlashAttention, true, false)
  else .error ("Unsupported platform " ++ platform)

/-- How `smart_flash_attention` ended up invoking a kernel: which kernel,
whether it was wrapped in a mesh-distributed `shard_map` (and over which
axis name), and whether q/k/v were upcast to float32 first. -/
structure AttnDispatch where
  kernel : FlashKernelFn
  shardMapped : Bool
  shardAxisName : Option String
  upcastFloat32 : Bool
  deriving Repr, DecidableEq

/-- `smart_flash_attention`, with the tensors represented by their
shapes: validate the `[batch, heads, seq, head_dim]` shape convention
(the `assert` block), select the kernel by platform, and either
shard-map it over the `"mp"` axis (GPU; the mesh must be non-null) or
run it locally with a float32 upcast when `force_float32_tpu` or the
platform policy asks for it (TPU). -/
def smartFlashAttention (platform : String)
    (qShape kShape vShape biasShape : List ℕ)
    (batchSize numAttentionHeads qSeqLen kvSeqLen headDims : ℕ)
    (mesh : Option Unit) (forceFloat32Tpu : Bool) : Except String AttnDispatch :=
  if ¬(qShape = [batchSize, numAttentionHeads, qSeqLen, headDims] ∧
       kShape = [batchSize, numAttentionHeads, kvSeqLen, headDims] ∧
       vShape = [batchSize, numAttentionHeads, kvSeqLen, headDims] ∧
       biasShape = [batchSize, numAttentionHeads, qSeqLen, kvSeqLen]) then
    .error "Q,K,V and bias shapes must be like [batch_size, num_attention_heads, seq, head_dims]"
  else
    match getFlashAttention platform with
    | .error e => .error e
    | .ok (flashAttnFn, f32Upcast, doShardMap) =>
      if doShardMap then
        match mesh with
        | none => .error "For Using Shard Map on GPUs you have to pass Mesh"
        | some _ => .ok ⟨flashAttnFn, true, some "mp", f32Upcast⟩
      else
        .ok ⟨flashAttnFn, false, none, forceFloat32Tpu || f32Upcast⟩

/-- C2 (Backend selection): with validly shaped inputs, platform `gpu`
invokes the ring flash-attention kernel through a shard map over the
`"mp"` (model-parallel) axis and fails when the mesh is null; platform
`tpu` runs the chunked TPU flash-attention kernel locally (no shard
map) with a forced float32 upcast of q/k/v regardless of the
`force_float32_tpu` flag; every other platform string fails with
"Unsupported platform". -/
theorem smart_flash_attention_backend_selection
    (qShape kShape vShape biasShape : List ℕ)
    (batchSize numAttentionHeads qSeqLen kvSeqLen headDims : ℕ)
    (hq : qShape = [batchSize, numAttentionHeads, qSeqLen, headDims])
    (hk : kShape = [batchSize, numAttentionHeads, kvSeqLen, headDims])
    (hv : vShape = [batchSize, numAttentionHeads, kvSeqLen, headDims])
    (hb : biasShape = [batchSize, numAttentionHeads, qSeqLen, kvSeqLen]) :
    (∀ force, smartFlashAttention "gpu" qShape kShape vShape biasShape
        batchSize numAttentionHeads qSeqLen kvSeqLen headDims none force =
      .error "For Using Shard Map on GPUs you have to pass Mesh") ∧
    (∀ m force, smartFlashAttention "gpu" qShape kShape vShape biasShape
        batchSize numAttentionHeads qSeqLen kvSeqLen headDims (some m) force =
      .ok ⟨.ringFlashAttentionGpu, true, some "mp", false⟩) ∧
    (∀ mesh force, smartFlashAttention "tpu" qShape kShape vShape biasShape
        batchSize numAttentionHeads qSeqLen kvSeqLen headDims mesh force =
      .ok ⟨.tpuFlashAttention, false, none, true⟩) ∧
    (∀ p mesh force, p ≠ "gpu" → p ≠ "tpu" →
      smartFlashAttention p qShape kShape vShape biasShape
        batchSize numAttentionHeads qSeqLen kvSeqLen headDims mesh force =
      .error ("Unsupported platform " ++ p)) := by
  subst hq hk hv hb
  refine ⟨fun force => ?_, fun m force => ?_, fun mesh force => ?_,
    fun p mesh force hp1 hp2 => ?_⟩
  · simp [smartFlashAttention, getFlashAttention]
  · simp [smartFlashAttention, getFlashAttention]
  · cases mesh <;> simp [smartFlashAttention, getFlashAttention]
  · cases mesh <;> simp [smartFlashAttention, getFlashAttention, hp1, hp2]

/-- C2 witness: concrete shapes with batch 1, 2 heads, query length 3,
key/value length 4, head dim 5. -/
theorem smart_flash_attention_backend_selection_witness :
    (∀ force, smartFlashAttention "gpu" [1, 2, 3, 5] [1, 2, 4, 5] [1, 2, 4, 5] [1, 2, 3, 4]
        1 2 3 4 5 none force =
      .error "For Using Shard Map on GPUs you have to pass Mesh") ∧
    (∀ m force, smartFlashAttention "gpu" [1, 2, 3, 5] [1, 2, 4, 5] [1, 2, 4, 5] [1, 2, 3, 4]
        1 2 3 4 5 (some m) force =
      .ok ⟨.ringFlashAttentionGpu, true, some "mp", false⟩) ∧
    (∀ mesh force, smartFlashAttention "tpu" [1, 2, 3, 5] [1, 2, 4, 5] [1, 2, 4, 5] [1, 2, 3, 4]
        1 2 3 4 5 mesh force =
      .ok ⟨.tpuFlashAttention, false, none, true⟩) ∧
    (∀ p mesh force, p ≠ "gpu" → p ≠ "tpu" →
      smartFlashAttention p [1, 2, 3, 5] [1, 2, 4, 5] [1, 2, 4, 5] [1, 2, 3, 4]
        1 2 3 4 5 mesh force =
      .error ("Unsupported platform " ++ p)) :=
  smart_flash_attention_backend_selection [1, 2, 3, 5] [1, 2, 4, 5] [1, 2, 4, 5] [1, 2, 3, 4]
    1 2 3 4 5 rfl rfl rfl rfl

/-! ## PartitionSpec resolver (`get_names_from_partition_spec`,
`names_in_mesh`, `with_sharding_constraint`)

A partition spec is an arbitrarily nested sequence whose items are
`None` placeholders, single axis-name strings, or further nested
sequences. `get_names_from_partition_spec` iterates the sequence,
skipping `None`, collecting strings, and recursing into anything else;
it accumulates into a Python set, which is then only consumed by the
subset test `set(names) <= set(mesh.axis_names)` in `names_in_mesh`, so
collecting into a list is an equivalent embedding. -/

mutual
inductive PSpecItem where
  | pnone : PSpecItem
  | pname (s : String) : PSpecItem
  | ptuple (xs : PSpecList) : PSpecItem
inductive PSpecList where
  | nil : PSpecList
  | cons (x : PSpecItem) (xs : PSpecList) : PSpecList
end

mutual
/-- Names referenced by one item of a partition spec. -/
def itemNames : PSpecItem → List String
  | .pnone => []
  | .pname s => [s]
  | .ptuple xs => specNames xs
/-- `get_names_from_partition_spec`: all axis names referenced anywhere
in the (possibly nested) spec. -/
def specNames : PSpecList → List String
  | .nil => []
  | .cons x xs => itemNames x ++ specNames xs
end

/-- `names_in_mesh(*names)`: are all the collected names declared axes
of the currently active physical mesh? -/
def namesInMesh (names meshAxisNames : List String) : Bool :=
  names.all fun n => meshAxisNames.contains n

/-- Result of `with_sharding_constraint`: either the tensor annotated
with the sharding constraint (`wsc` applied) or the tensor unchanged. -/
inductive WscResult (α : Type) where
  | constrained (x : α) (spec : PSpecList) : WscResult α
  | plain (x : α) : WscResult α

/-- `with_sharding_constraint(x, partition_specs)` against the active
mesh's axis names. -/
def withShardingConstraint {α : Type} (meshAxisNames : List String) (x : α)
    (spec : PSpecList) : WscResult α :=
  if namesInMesh (specNames spec) meshAxisNames then .constrained x spec else .plain x

mutual
/-- The independent, claim-side notion of "axis-name string recursively
collected from the spec": `n` occurs somewhere in the nested spec. -/
inductive ItemOccurs : String → PSpecItem → Prop where
  | name (s : String) : ItemOccurs s (.pname s)
  | tup {s : String} {xs : PSpecList} : SpecOccurs s xs → ItemOccurs s (.ptuple xs)
inductive SpecOccurs : String → PSpecList → Prop where
  | head {s : String} {x : PSpecItem} {xs : PSpecList} :
      ItemOccurs s x → SpecOccurs s (.cons x xs)
  | tail {s : String} {x : PSpecItem} {xs : PSpecList} :
      SpecOccurs s xs → SpecOccurs s (.cons x xs)
end

mutual
theorem mem_itemNames_iff (n : String) : (x : PSpecItem) →
    (n ∈ itemNames x ↔ ItemOccurs n x)
  | .pnone => by
    simp only [itemNames, List.not_mem_nil, false_iff]
    intro h
    cases h
  | .pname s => by
    simp only [itemNames, List.mem_singleton]
    constructor
    · rintro rfl
      exact .name _
    · rintro ⟨⟩
      rfl
  | .ptuple xs => by
    simp only [itemNames]
    rw [mem_specNames_iff n xs]
    constructor
    · exact fun h => .tup h
    · rintro ⟨⟩
      assumption
theorem mem_specNames_iff (n : String) : (xs : PSpecList) →
    (n ∈ specNames xs ↔ SpecOccurs n xs)
  | .nil => by
    simp only [specNames, List.not_mem_nil, false_iff]
    intro h
    cases h
  | .cons x xs => by
    simp only [specNames, List.mem_append]
    rw [mem_itemNames_iff n x, mem_specNames_iff n xs]
    constructor
    · rintro (h | h)
      · exact .head h
      · exact .tail h
    · rintro (⟨⟩ | ⟨⟩) <;> [exact Or.inl (by assumption); exact Or.inr (by assumption)]
end

/-- C3: `with_sharding_constraint(x, spec)` applies the
sharding-constraint annotation iff every axis name recursively
collected from the spec is a declared axis of the active mesh; in every
other case it returns `x` unchanged — a silent no-op, no error. -/
theorem with_sharding_constraint_iff {α : Type} (meshAxisNames : List String) (x : α)
    (spec : PSpecList) :
    (withShardingConstraint meshAxisNames x spec = .constrained x spec ↔
      ∀ n, SpecOccurs n spec → n ∈ meshAxisNames) ∧
    (¬(∀ n, SpecOccurs n spec → n ∈ meshAxisNames) →
      withShardingConstraint meshAxisNames x spec = .plain x) := by
  have hchar : namesInMesh (specNames spec) meshAxisNames = true ↔
      ∀ n, SpecOccurs n spec → n ∈ meshAxisNames := by
    simp only [namesInMesh, List.all_eq_true]
    constructor
    · intro h n hn
      exact List.elem_iff.mp (h n ((mem_specNames_iff n spec).mpr hn))
    · intro h n hn
      exact List.elem_iff.mpr (h n ((mem_specNames_iff n spec).mp hn))
  unfold withShardingConstraint
  by_cases hmesh : namesInMesh (specNames spec) meshAxisNames = true
  · rw [if_pos hmesh]
    exact ⟨iff_of_true rfl (hchar.mp hmesh), fun hc => absurd (hchar.mp hmesh) hc⟩
  · rw [if_neg hmesh]
    exact ⟨iff_of_false (fun h => WscResult.noConfusion h) (mt hchar.mpr hmesh), fun _ => rfl⟩

/-- C3 witness: mesh axes `["dp", "fsdp"]`, spec `(("dp", "fsdp"), None)`
is constrained; spec `("dp", "mp")` is returned unchanged. -/
theorem with_sharding_constraint_iff_witness :
    (withShardingConstraint ["dp", "fsdp"] (7 : ℕ)
        (.cons (.ptuple (.cons (.pname "dp") (.cons (.pname "fsdp") .nil)))
          (.cons .pnone .nil)) =
      .constrained 7
        (.cons (.ptuple (.cons (.pname "dp") (.cons (.pname "fsdp") .nil)))
          (.cons .pnone .nil)) ↔
      ∀ n, SpecOccurs n
        (.cons (.ptuple (.cons (.pname "dp") (.cons (.pname "fsdp") .nil)))
          (.cons .pnone .nil)) → n ∈ ["dp", "fsdp"]) ∧
    (¬(∀ n, SpecOccurs n
        (.cons (.ptuple (.cons (.pname "dp") (.cons (.pname "fsdp") .nil)))
          (.cons .pnone .nil)) → n ∈ ["dp", "fsdp"]) →
      withShardingConstraint ["dp", "fsdp"] (7 : ℕ)
        (.cons (.ptuple (.cons (.pname "dp") (.cons (.pname "fsdp") .nil)))
          (.cons .pnone .nil)) = .plain 7) :=
  with_sharding_constraint_iff ["dp", "fsdp"] 7
    (.cons (.ptuple (.cons (.pname "dp") (.cons (.pname "fsdp") .nil)))
      (.cons .pnone .nil))

/-! ## Weight conversion (`match_keywords`, `huggingface_to_easydel`)

Keys are dotted parameter-path strings, modelled as `List Char`.
Tensors are abstract (`α`) together with three abstract operations:
`ndim` (the length of `tensor.shape`), `tr` (`tensor.transpose(0, 1)`)
and `cv` (the uniformly applied
`tensor.detach().cpu().numpy().astype(dtype)` pipeline). The final
`flax.traverse_util.unflatten_dict` is external; the embedding stops at
the flat tuple-of-segments-keyed mapping the source builds just before
it. -/

/-- Is `p` a leading piece of `l`? -/
def isLeading : List Char → List Char → Bool
  | [], _ => true
  | _ :: _, [] => false
  | a :: as, b :: bs => a = b && isLeading as bs

/-- Python's substring test `needle in hay`. -/
def containsSub (needle : List Char) : List Char → Bool
  | [] => isLeading needle []
  | c :: rest => isLeading needle (c :: rest) || containsSub needle rest

/-- `match_keywords(string, ts, ns)`: every keyword of `ts` occurs in
the string and no keyword of `ns` does. -/
def matchKeywords (s : List Char) (ts ns : List (List Char)) : Bool :=
  (ts.all fun t => containsSub t s) && (ns.all fun n => !containsSub n s)

/-- Python `key[:-7]` (`_l = len('.weight')`): drop the last 7
characters, whatever they are. -/
def chopWeight (k : List Char) : List Char :=
  k.take (k.length - 7)

/-- Python `key.endswith(suffix)`. -/
def endsWithSuffix (k suffix : List Char) : Bool :=
  k.drop (k.length - suffix.length) = suffix

/-- Python `key.split('.')`. -/
def splitOnDot : List Char → List (List Char)
  | [] => [[]]
  | c :: rest =>
    if c = '.' then [] :: splitOnDot rest
    else
      match splitOnDot rest with
      | s :: ss => (c :: s) :: ss
      | [] => [[c]]

/-- One iteration of the `huggingface_to_easydel` loop body for the
entry `(key, tensor)`: embedding-layer keys are renamed by chopping the
last 7 characters and appending `.embedding`; otherwise keys matching
`match_keywords(key, ['kernel'], ['none'])` get their 2-D tensor
transposed and, when the key ends in `.weight`, the key renamed to
`...kernel`; every other entry passes through; finally the key is split
on dots and the tensor run through the device/dtype pipeline `cv`. -/
def processEntry {α : Type} (ndim : α → ℕ) (tr cv : α → α) (embName : List Char)
    (key : List Char) (tensor : α) : List (List Char) × α :=
  if containsSub embName key then
    (splitOnDot (chopWeight key ++ ".embedding".data), cv tensor)
  else if matchKeywords key ["kernel".data] ["none".data] then
    let tensor := if ndim tensor = 2 then tr tensor else tensor
    let key := if endsWithSuffix key ".weight".data then chopWeight key ++ ".kernel".data else key
    (splitOnDot key, cv tensor)
  else
    (splitOnDot key, cv tensor)

/-- `huggingface_to_easydel(state_dict, embedding_layer_name, ...)` up
to the final (external) `unflatten_dict`. -/
def huggingfaceToEasydel {α : Type} (ndim : α → ℕ) (tr cv : α → α) (embName : List Char)
    (stateDict : List (List Char × α)) : List (List (List Char) × α) :=
  stateDict.map fun p => processEntry ndim tr cv embName p.1 p.2

/-- C4 (Weight conversion rules): every path containing the embedding
layer name and ending in `.weight` is renamed `...weight` →
`...embedding`; every other path matching the `kernel` rule has its 2-D
tensor transposed, and is renamed `...weight` → `...kernel` when it
ends in `.weight`; every remaining path passes through with its dotted
path split into segments and its tensor untransposed. -/
theorem huggingface_to_easydel_rules {α : Type} (ndim : α → ℕ) (tr cv : α → α)
    (embName : List Char) (stateDict : List (List Char × α)) (i : ℕ)
    (key : List Char) (tensor : α)
    (hget : stateDict[i]? = some (key, tensor)) :
    (containsSub embName key = true → endsWithSuffix key ".weight".data = true →
      (huggingfaceToEasydel ndim tr cv embName stateDict)[i]? =
        some (splitOnDot (chopWeight key ++ ".embedding".data), cv tensor)) ∧
    (containsSub embName key = false →
      matchKeywords key ["kernel".data] ["none".data] = true → ndim tensor = 2 →
      endsWithSuffix key ".weight".data = true →
      (huggingfaceToEasydel ndim tr cv embName stateDict)[i]? =
        some (splitOnDot (chopWeight key ++ ".kernel".data), cv (tr tensor))) ∧
    (containsSub embName key = false →
      matchKeywords key ["kernel".data] ["none".data] = false →
      (huggingfaceToEasydel ndim tr cv embName stateDict)[i]? =
        some (splitOnDot key, cv tensor)) := by
  have hmap : (huggingfaceToEasydel ndim tr cv embName stateDict)[i]? =
      some (processEntry ndim tr cv embName key tensor) := by
    unfold huggingfaceToEasydel
    rw [List.getElem?_map, hget]
    rfl
  refine ⟨fun hemb _ => ?_, fun hemb hker hnd hw => ?_, fun hemb hker => ?_⟩
  · rw [hmap]
    simp [processEntry, hemb]
  · rw [hmap]
    simp [processEntry, hemb, hker, hnd, hw]
  · rw [hmap]
    simp [processEntry, hemb, hker]

/-- C4 witness: a state dict with an embedding entry, a kernel entry
and a pass-through entry; tensors are naturals carrying their `ndim`,
with `tr = +100` and `cv = *2`. -/
theorem huggingface_to_easydel_rules_witness :
    (containsSub "wte".data "wte.weight".data = true →
      endsWithSuffix "wte.weight".data ".weight".data = true →
      (huggingfaceToEasydel (fun n : ℕ => n) (· + 100) (· * 2) "wte".data
        [("wte.weight".data, 2)])[0]? =
        some (splitOnDot (chopWeight "wte.weight".data ++ ".embedding".data), 2 * 2)) ∧
    (containsSub "wte".data "wte.weight".data = false →
      matchKeywords "wte.weight".data ["kernel".data] ["none".data] = true →
      (fun n : ℕ => n) 2 = 2 →
      endsWithSuffix "wte.weight".data ".weight".data = true →
      (huggingfaceToEasydel (fun n : ℕ => n) (· + 100) (· * 2) "wte".data
        [("wte.weight".data, 2)])[0]? =
        some (splitOnDot (chopWeight "wte.weight".data ++ ".kernel".data), (2 + 100) * 2)) ∧
    (containsSub "wte".data "wte.weight".data = false →
      matchKeywords "wte.weight".data ["kernel".data] ["none".data] = false →
      (huggingfaceToEasydel (fun n : ℕ => n) (· + 100) (· * 2) "wte".data
        [("wte.weight".data, 2)])[0]? =
        some (splitOnDot "wte.weight".data, 2 * 2)) :=
  huggingface_to_easydel_rules (fun n : ℕ => n) (· + 100) (· * 2) "wte".data
    [("wte.weight".data, 2)] 0 "wte.weight".data 2 rfl

/-- C10 (embedding rule precedence): a key containing the embedding
layer name always takes the embedding branch — the tensor is never
transposed and the key is never renamed to `...kernel`, even when the
tensor is 2-D and the key also satisfies the kernel-matching
condition. -/
theorem huggingface_to_easydel_embedding_precedence {α : Type} (ndim : α → ℕ)
    (tr cv : α → α) (embName : List Char) (stateDict : List (List Char × α)) (i : ℕ)
    (key : List Char) (tensor : α)
    (hget : stateDict[i]? = some (key, tensor))
    (hemb : containsSub embName key = true) :
    (huggingfaceToEasydel ndim tr cv embName stateDict)[i]? =
      some (splitOnDot (chopWeight key ++ ".embedding".data), cv tensor) := by
  unfold huggingfaceToEasydel
  rw [List.getElem?_map, hget]
  simp [processEntry, hemb]

/-- C10 witness: `transformer.wte.weight` with a 2-D tensor whose key
also contains `kernel`-free text still routes to the embedding branch
(tensor `2` is mapped by `cv = *2` only, never by `tr = +100`). -/
theorem huggingface_to_easydel_embedding_precedence_witness :
    (huggingfaceToEasydel (fun n : ℕ => n) (· + 100) (· * 2) "wte".data
      [("transformer.wte.kernel.weight".data, 2)])[0]? =
      some (splitOnDot (chopWeight "transformer.wte.kernel.weight".data ++ ".embedding".data),
        2 * 2) :=
  huggingface_to_easydel_embedding_precedence (fun n : ℕ => n) (· + 100) (· * 2) "wte".data
    [("transformer.wte.kernel.weight".data, 2)] 0 "transformer.wte.kernel.weight".data 2
    rfl (by decide)

/-! ## `FalconConfig.add_jax_args`

The configuration object is modelled as its Python attribute
dictionary: an association list from attribute names to values (`V`
abstract), where `setattr` conses a new binding (attribute lookup sees
the most recent one) and `hasattr` is lookup success.

The source assigns `axis_names`, `axis_dims`, the five partition specs
and `backend` unconditionally, then walks the `basics` dict setting each
entry only when `not hasattr(self, key)`, and finally assigns
`self.from_pt = False`. Mistral's `add_jax_args` assigns every one of
its fields unconditionally (it has no `hasattr` guard at all). -/

def pySetattr {V : Type} (s : List (String × V)) (k : String) (v : V) : List (String × V) :=
  (k, v) :: s

def pyHasattr {V : Type} (s : List (String × V)) (k : String) : Bool :=
  (s.lookup k).isSome

/-- `FalconConfig.add_jax_args` over the attribute dictionary `s`:
unconditional sharding-field assignments, the `hasattr`-guarded
`basics` loop, then `self.from_pt = False` (`fromPt`). -/
def falconAddJaxArgs {V : Type}
    (axisNames axisDims qPs kPs vPs bPs aPs backend fromPt : V)
    (basics : List (String × V)) (s : List (String × V)) : List (String × V) :=
  let s := pySetattr s "axis_names" axisNames
  let s := pySetattr s "axis_dims" axisDims
  let s := pySetattr s "q_ps" qPs
  let s := pySetattr s "k_ps" kPs
  let s := pySetattr s "v_ps" vPs
  let s := pySetattr s "b_ps" bPs
  let s := pySetattr s "a_ps" aPs
  let s := pySetattr s "backend" backend
  let s := basics.foldl
    (fun acc kv => if pyHasattr acc kv.1 then acc else pySetattr acc kv.1 kv.2) s
  pySetattr s "from_pt" fromPt

/-- The attribute names `add_jax_args` assigns unconditionally. -/
def falconForcedKeys : List String :=
  ["axis_names", "axis_dims", "q_ps", "k_ps", "v_ps", "b_ps", "a_ps", "backend", "from_pt"]

theorem lookup_cons_ne {V : Type} (s : List (String × V)) (k b : String) (v : V)
    (h : k ≠ b) : ((b, v) :: s).lookup k = s.lookup k := by
  rw [List.lookup_cons]
  simp [beq_false_of_ne h]

theorem lookup_pySetattr {V : Type} (s : List (String × V)) (k k' : String) (v : V) :
    (pySetattr s k' v).lookup k = if k = k' then some v else s.lookup k := by
  unfold pySetattr
  by_cases h : k = k'
  · subst h
    rw [if_pos rfl, List.lookup_cons_self]
  · rw [if_neg h, lookup_cons_ne _ _ _ _ h]

theorem lookup_basicsFold {V : Type} (basics : List (String × V)) :
    ∀ (acc : List (String × V)) (k : String),
      (basics.foldl
        (fun acc kv => if pyHasattr acc kv.1 then acc else pySetattr acc kv.1 kv.2) acc).lookup k =
      match acc.lookup k with
      | some v => some v
      | none => basics.lookup k := by
  induction basics with
  | nil =>
    intro acc k
    simp only [List.foldl_nil]
    cases h : acc.lookup k <;> simp [h, List.lookup]
  | cons bv rest ih =>
    intro acc k
    obtain ⟨b, v⟩ := bv
    simp only [List.foldl_cons]
    by_cases hguard : pyHasattr acc b = true
    · rw [if_pos hguard, ih acc k]
      cases h : acc.lookup k with
      | some w => simp
      | none =>
        have hne : k ≠ b := by
          intro he
          subst he
          unfold pyHasattr at hguard
          rw [h] at hguard
          simp at hguard
        simp only []
        rw [lookup_cons_ne _ _ _ _ hne]
    · rw [if_neg hguard, ih (pySetattr acc b v) k, lookup_pySetattr]
      by_cases hk : k = b
      · subst hk
        have hnone : acc.lookup k = none := by
          unfold pyHasattr at hguard
          cases h : acc.lookup k
          · rfl
          · rw [h] at hguard
            simp at hguard
        rw [if_pos rfl, hnone, List.lookup_cons_self]
      · rw [if_neg hk]
        cases h : acc.lookup k with
        | some w => simp
        | none =>
          simp only []
          rw [lookup_cons_ne _ _ _ _ hk]

/-- Closed form of attribute lookup after `add_jax_args`: the nine
unconditionally assigned fields read back the argument values; every
other attribute reads its previous value when present and otherwise the
`basics` default. -/
theorem lookup_falconAddJaxArgs {V : Type}
    (axisNames axisDims qPs kPs vPs bPs aPs backend fromPt : V)
    (basics s : List (String × V)) (k : String) :
    (falconAddJaxArgs axisNames axisDims qPs kPs vPs bPs aPs backend fromPt basics s).lookup k =
      if k = "from_pt" then some fromPt
      else if k = "backend" then some backend
      else if k = "a_ps" then some aPs
      else if k = "b_ps" then some bPs
      else if k = "v_ps" then some vPs
      else if k = "k_ps" then some kPs
      else if k = "q_ps" then some qPs
      else if k = "axis_dims" then some axisDims
      else if k = "axis_names" then some axisNames
      else match s.lookup k with
        | some v => some v
        | none => basics.lookup k := by
  unfold falconAddJaxArgs
  rw [lookup_pySetattr, lookup_basicsFold, lookup_pySetattr, lookup_pySetattr, lookup_pySetattr,
    lookup_pySetattr, lookup_pySetattr, lookup_pySetattr, lookup_pySetattr, lookup_pySetattr]
  by_cases h1 : k = "from_pt"
  · simp [h1]
  rw [if_neg h1, if_neg h1]
  by_cases h2 : k = "backend"
  · simp [h2]
  rw [if_neg h2, if_neg h2]
  by_cases h3 : k = "a_ps"
  · simp [h3]
  rw [if_neg h3, if_neg h3]
  by_cases h4 : k = "b_ps"
  · simp [h4]
  rw [if_neg h4, if_neg h4]
  by_cases h5 : k = "v_ps"
  · simp [h5]
  rw [if_neg h5, if_neg h5]
  by_cases h6 : k = "k_ps"
  · simp [h6]
  rw [if_neg h6, if_neg h6]
  by_cases h7 : k = "q_ps"
  · simp [h7]
  rw [if_neg h7, if_neg h7]
  by_cases h8 : k = "axis_dims"
  · simp [h8]
  rw [if_neg h8, if_neg h8]
  by_cases h9 : k = "axis_names"
  · simp [h9]
  rw [if_neg h9, if_neg h9]

/-- C6 counterexample: an attribute dictionary that already carries
`backend = 1` still has its `backend` overwritten (to the argument `0`)
by `add_jax_args`, so "fills in sharding-related fields only if not
already present / never overwrites an existing attribute" fails as
stated. -/
theorem falcon_add_jax_args_overwrites :
    (falconAddJaxArgs (V := ℕ) 0 0 0 0 0 0 0 0 0 [] [("backend", 1)]).lookup "backend" ≠
      ([("backend", (1 : ℕ))]).lookup "backend" := by
  decide

/-- The attribute names `MistralConfig.add_jax_args` assigns, in source
order (lines 256-275): every one is a plain `self.x = x` assignment —
the Mistral variant has no `hasattr` guard at all. -/
def mistralAssignedKeys : List String :=
  ["use_flash_attention", "number_rep_kv", "gradient_checkpointing",
   "use_pjit_attention_force", "use_sacn_mlp", "flash_attn_query_chunk_size",
   "flash_attn_key_chunk_size", "scan_mlp_chunk_size", "attn_pdrop",
   "c_max_position_embeddings", "freq_max_position_embeddings", "bits",
   "axis_names", "axis_dims", "q_ps", "k_ps", "v_ps", "b_ps", "a_ps", "backend"]

/-- `MistralConfig.add_jax_args` over the attribute dictionary `s`: the
twenty unconditional assignments in source order, where `argVal`
gives the argument value bound to each assigned attribute name. -/
def mistralAddJaxArgs {V : Type} (argVal : String → V) (s : List (String × V)) :
    List (String × V) :=
  mistralAssignedKeys.foldl (fun acc k => pySetattr acc k (argVal k)) s

theorem lookup_setattrFold {V : Type} (keys : List String) (argVal : String → V) :
    ∀ (s : List (String × V)) (k : String),
      (keys.foldl (fun acc k' => pySetattr acc k' (argVal k')) s).lookup k =
        if k ∈ keys then some (argVal k) else s.lookup k := by
  induction keys with
  | nil =>
    intro s k
    simp
  | cons a rest ih =>
    intro s k
    simp only [List.foldl_cons]
    rw [ih (pySetattr s a (argVal a)) k, lookup_pySetattr]
    by_cases hk : k ∈ rest
    · rw [if_pos hk, if_pos (List.mem_cons_of_mem a hk)]
    · rw [if_neg hk]
      by_cases hka : k = a
      · subst hka
        rw [if_pos rfl, if_pos (List.mem_cons_self k rest)]
      · rw [if_neg hka, if_neg (by simp [hka, hk])]

theorem lookup_mistralAddJaxArgs {V : Type} (argVal : String → V)
    (s : List (String × V)) (k : String) :
    (mistralAddJaxArgs argVal s).lookup k =
      if k ∈ mistralAssignedKeys then some (argVal k) else s.lookup k :=
  lookup_setattrFold mistralAssignedKeys argVal s k

/-- C6 amended: `add_jax_args` unconditionally assigns the
sharding-related fields (`axis_dims`, `axis_names`, the five partition
specs, `backend`; plus `from_pt`) from its arguments, overwriting any
existing values; in the Falcon variant the remaining (hyper-parameter)
fields are filled only when not already present, while the Mistral
variant assigns every one of its fields unconditionally; and calling
either variant twice with the same arguments yields the same
configuration state as calling it once. -/
theorem add_jax_args_amended {V : Type}
    (axisNames axisDims qPs kPs vPs bPs aPs backend fromPt : V)
    (basics s : List (String × V)) (argVal : String → V) (s₂ : List (String × V)) :
    ((falconAddJaxArgs axisNames axisDims qPs kPs vPs bPs aPs backend fromPt basics
          s).lookup "axis_names" = some axisNames ∧
      (falconAddJaxArgs axisNames axisDims qPs kPs vPs bPs aPs backend fromPt basics
          s).lookup "axis_dims" = some axisDims ∧
      (falconAddJaxArgs axisNames axisDims qPs kPs vPs bPs aPs backend fromPt basics
          s).lookup "q_ps" = some qPs ∧
      (falconAddJaxArgs axisNames axisDims qPs kPs vPs bPs aPs backend fromPt basics
          s).lookup "k_ps" = some kPs ∧
      (falconAddJaxArgs axisNames axisDims qPs kPs vPs bPs aPs backend fromPt basics
          s).lookup "v_ps" = some vPs ∧
      (falconAddJaxArgs axisNames axisDims qPs kPs vPs bPs aPs backend fromPt basics
          s).lookup "b_ps" = some bPs ∧
      (falconAddJaxArgs axisNames axisDims qPs kPs vPs bPs aPs backend fromPt basics
          s).lookup "a_ps" = some aPs ∧
      (falconAddJaxArgs axisNames axisDims qPs kPs vPs bPs aPs backend fromPt basics
          s).lookup "backend" = some backend ∧
      (falconAddJaxArgs axisNames axisDims qPs kPs vPs bPs aPs backend fromPt basics
          s).lookup "from_pt" = some fromPt) ∧
    (∀ k, k ∉ falconForcedKeys → pyHasattr s k = true →
      (falconAddJaxArgs axisNames axisDims qPs kPs vPs bPs aPs backend fromPt basics
        s).lookup k = s.lookup k) ∧
    (∀ k, (falconAddJaxArgs axisNames axisDims qPs kPs vPs bPs aPs backend fromPt basics
        (falconAddJaxArgs axisNames axisDims qPs kPs vPs bPs aPs backend fromPt basics
          s)).lookup k =
      (falconAddJaxArgs axisNames axisDims qPs kPs vPs bPs aPs backend fromPt basics
        s).lookup k) ∧
    (∀ k, k ∈ mistralAssignedKeys →
      (mistralAddJaxArgs argVal s₂).lookup k = some (argVal k)) ∧
    (∀ k, k ∉ mistralAssignedKeys →
      (mistralAddJaxArgs argVal s₂).lookup k = s₂.lookup k) ∧
    (∀ k, (mistralAddJaxArgs argVal (mistralAddJaxArgs argVal s₂)).lookup k =
      (mistralAddJaxArgs argVal s₂).lookup k) := by
  refine ⟨⟨?_, ?_, ?_, ?_, ?_, ?_, ?_, ?_, ?_⟩, fun k hk hattr => ?_, fun k => ?_,
    fun k hk => ?_, fun k hk => ?_, fun k => ?_⟩
  · rw [lookup_falconAddJaxArgs]
    simp
  · rw [lookup_falconAddJaxArgs]
    simp
  · rw [lookup_falconAddJaxArgs]
    simp
  · rw [lookup_falconAddJaxArgs]
    simp
  · rw [lookup_falconAddJaxArgs]
    simp
  · rw [lookup_falconAddJaxArgs]
    simp
  · rw [lookup_falconAddJaxArgs]
    simp
  · rw [lookup_falconAddJaxArgs]
    simp
  · rw [lookup_falconAddJaxArgs]
    simp
  · rw [lookup_falconAddJaxArgs]
    simp only [falconForcedKeys, List.mem_cons, List.not_mem_nil, or_false, not_or] at hk
    obtain ⟨n1, n2, n3, n4, n5, n6, n7, n8, n9⟩ := hk
    rw [if_neg n1, if_neg n9, if_neg n2, if_neg n3, if_neg n4, if_neg n5, if_neg n6,
      if_neg n7, if_neg n8]
    unfold pyHasattr at hattr
    cases hs : s.lookup k with
    | some v => simp
    | none =>
      rw [hs] at hattr
      simp at hattr
  · rw [lookup_falconAddJaxArgs, lookup_falconAddJaxArgs]
    by_cases h1 : k = "from_pt"
    · simp only [if_pos h1]
    simp only [if_neg h1]
    by_cases h2 : k = "backend"
    · simp only [if_pos h2]
    simp only [if_neg h2]
    by_cases h3 : k = "a_ps"
    · simp only [if_pos h3]
    simp only [if_neg h3]
    by_cases h4 : k = "b_ps"
    · simp only [if_pos h4]
    simp only [if_neg h4]
    by_cases h5 : k = "v_ps"
    · simp only [if_pos h5]
    simp only [if_neg h5]
    by_cases h6 : k = "k_ps"
    · simp only [if_pos h6]
    simp only [if_neg h6]
    by_cases h7 : k = "q_ps"
    · simp only [if_pos h7]
    simp only [if_neg h7]
    by_cases h8 : k = "axis_dims"
    · simp only [if_pos h8]
    simp only [if_neg h8]
    by_cases h9 : k = "axis_names"
    · simp only [if_pos h9]
    simp only [if_neg h9]
    cases hs : s.lookup k with
    | some v => simp
    | none =>
      simp only []
      cases hb : basics.lookup k <;> simp [hb]
  · rw [lookup_mistralAddJaxArgs, if_pos hk]
  · rw [lookup_mistralAddJaxArgs, if_neg hk]
  · rw [lookup_mistralAddJaxArgs, lookup_mistralAddJaxArgs]
    by_cases hk : k ∈ mistralAssignedKeys <;> simp [hk]

/-! ## Device mesh builder (`create_mesh`)

`create_mesh` builds `jnp.ones((device_count, 1))` — an array of
`device_count` elements — and reshapes it to `axis_dims`, reading the
resolved shape back off the reshaped array. The `-1` resolution and the
divisibility failure are therefore exactly numpy's `reshape` semantics:
any negative entry is the (at most one) unknown dimension, resolved to
`size / product(known_dims)`, erroring when the known product does not
evenly divide the array size. `jax.sharding.Mesh` then binds
`axis_names` positionally, and `mesh.shape[name]` reads the resolved
dim for `name`. `create_device_mesh` is an external device-placement
concern. -/

def resolveReshape (size : ℕ) (dims : List Int) : Except String (List ℕ) :=
  if 2 ≤ dims.countP (fun d => d < 0) then
    .error "can only specify one unknown dimension"
  else
    let known : ℕ := (dims.filter (fun d => 0 ≤ d)).foldl (fun a d => a * d.toNat) 1
    if dims.countP (fun d => d < 0) = 1 then
      if known ≠ 0 ∧ known ∣ size then
        .ok (dims.map fun d => if d < 0 then size / known else d.toNat)
      else
        .error "cannot reshape array"
    else if known = size then
      .ok (dims.map Int.toNat)
    else
      .error "cannot reshape array"

/-- `create_mesh(axis_dims, axis_names, backend)` on a device pool of
`deviceCount` devices, returned as the mesh's name-to-size shape
mapping. -/
def createMesh (deviceCount : ℕ) (axisDims : List Int) (axisNames : List String) :
    Except String (List (String × ℕ)) :=
  (resolveReshape deviceCount axisDims).map fun resh => axisNames.zip resh

/-- C7 (Mesh axis inference): `create_mesh((1, -1, 1, 1), names)` on 8
devices resolves the `-1` slot to 8 and the mesh shape maps `fsdp` to
8; and whenever the product of the explicit dims does not evenly divide
the device count, `create_mesh` fails. -/
theorem create_mesh_axis_inference (deviceCount : ℕ) (axisDims : List Int)
    (axisNames : List String)
    (hone : axisDims.countP (fun d => d < 0) = 1)
    (hdvd : ¬((axisDims.filter (fun d => 0 ≤ d)).foldl
      (fun a d => a * d.toNat) 1 ∣ deviceCount)) :
    ((createMesh 8 [1, -1, 1, 1] ["dp", "fsdp", "tp", "mp"]).map
        (fun shape => shape.lookup "fsdp") = .ok (some 8)) ∧
    createMesh deviceCount axisDims axisNames = .error "cannot reshape array" := by
  refine ⟨by rfl, ?_⟩
  unfold createMesh resolveReshape
  rw [if_neg (by omega), if_pos hone, if_neg (by intro ⟨_, h⟩; exact hdvd h)]
  rfl

/-- C7 witness: dims `(3, -1, 1, 1)` on 8 devices — 3 does not divide
8 — fail; `(1, -1, 1, 1)` on 8 devices gives `fsdp = 8`. -/
theorem create_mesh_axis_inference_witness :
    (([(3 : Int), -1, 1, 1]).countP (fun d => d < 0) = 1) ∧
    (¬((([(3 : Int), -1, 1, 1]).filter (fun d => 0 ≤ d)).foldl
      (fun a d => a * d.toNat) 1 ∣ 8)) ∧
    (((createMesh 8 [1, -1, 1, 1] ["dp", "fsdp", "tp", "mp"]).map
        (fun shape => shape.lookup "fsdp") = .ok (some 8)) ∧
      createMesh 8 [3, -1, 1, 1] ["dp", "fsdp", "tp", "mp"] = .error "cannot reshape array") :=
  ⟨by decide, by decide,
    create_mesh_axis_inference 8 [3, -1, 1, 1] ["dp", "fsdp", "tp", "mp"] (by decide) (by decide)⟩

/-! ## Pretrained-model `__call__` position-id handling

Both `FlaxFalconPretrainedModel.__call__` and
`FlaxMistralPretrainedModel.__call__` run the same preamble: if
`position_ids` is omitted they raise when `past_key_values` was
supplied, and otherwise default `position_ids` to
`jnp.broadcast_to(jnp.arange(seq_len)[None, :], (batch, seq_len))`.
The cache payload type `κ` is abstract. -/

def resolvePositionIds {κ : Type} (batchSize seqLen : ℕ)
    (positionIds : Option (List (List ℕ))) (pastKeyValues : Option κ) :
    Except String (List (List ℕ)) :=
  match positionIds with
  | some p => .ok p
  | none =>
    match pastKeyValues with
    | some _ => .error "Make sure to provide `position_ids` when passing `past_key_values`."
    | none => .ok (List.replicate batchSize (List.range seqLen))

/-- C9 (Position ids while cache active): calling with
`past_key_values` supplied but `position_ids` omitted raises the
explicit "provide position_ids" error; with `past_key_values` absent,
an omitted `position_ids` defaults to the broadcast arange over the
sequence length, without error. -/
theorem resolve_position_ids_spec {κ : Type} (batchSize seqLen : ℕ) (cache : κ) :
    resolvePositionIds batchSize seqLen none (some cache) =
      .error "Make sure to provide `position_ids` when passing `past_key_values`." ∧
    resolvePositionIds (κ := κ) batchSize seqLen none none =
      .ok (List.replicate batchSize (List.range seqLen)) :=
  ⟨rfl, rfl⟩

/-! ## Alibi positional bias (`built_bloom_alibi`)

All the floating-point quantities the function builds are exact powers
of two times integers, so they are embedded exactly: a slope is kept as
its base-2 exponent (a rational: `slope = 2 ^ exp`), and the
`((cumsum(attention_mask, -1)) - 1) * attention_mask` tensor as integer
rows. `math.log2(cp2)` is exact because `cp2 = 2 ** floor(log2(n))`.

The `cp2 != num_attention_heads` correction branch computes
`extra_power = jnp.arange(1, 1 + 2 * num_rem_heads, 2, dtype=jnp.dtype)`
— the argument passed as the dtype is the dtype *class* itself, not a
dtype (the power-of-two path above it uses `dtype=jnp.float32`), and
`arange` rejects it, so the branch raises instead of producing the extra
slopes. `jnpArange` embeds `arange` together with that dtype-validity
check. -/

inductive JnpDtype where
  | float32
  | dtypeClass
  deriving Repr, DecidableEq

/-- `jnp.arange(start, stop, step, dtype)`. Passing the dtype class
`jnp.dtype` where a dtype is expected is a `TypeError`. -/
def jnpArange (start stop step : Int) (dtype : JnpDtype) : Except String (List Int) :=
  match dtype with
  | .dtypeClass => .error "Cannot interpret dtype as a data type"
  | .float32 =>
    if step ≤ 0 then .ok []
    else .ok ((List.range ((stop - start + step - 1) / step).toNat).map
      (fun i => start + step * (i : Int)))

/-- Running cumulative sum (`jnp.cumsum` along the last axis). -/
def cumsumFrom (acc : Int) : List Int → List Int
  | [] => []
  | x :: xs => (acc + x) :: cumsumFrom (acc + x) xs

/-- One batch row of `((jnp.cumsum(attention_mask, axis=-1)) - 1) *
attention_mask`. -/
def arangeTensorRow (row : List Int) : List Int :=
  List.zipWith (fun c m => (c - 1) * m) (cumsumFrom 0 row) row

/-- The data `built_bloom_alibi` assembles: per-head slopes (kept as
base-2 exponents, `slope_h = 2 ^ slopeExps[h]`) and the per-batch-row
valid-prior-token counts; the returned bias is their outer product. -/
structure AlibiData where
  slopeExps : List ℚ
  arangeTensor : List (List Int)
  deriving Repr, DecidableEq

/-- `built_bloom_alibi(attention_mask, num_attention_heads)`:
`cp2 = 2 ** floor(log2(n))`, `base = 2 ** (-(2 ** -(log2(cp2) - 3)))`,
`slops = base ** arange(1, 1 + cp2)`; when `cp2 != n` the correction
branch doubles the base and walks the odd powers — but its `arange`
call is handed `jnp.dtype` (the class) as the dtype and raises. -/
def builtBloomAlibi (attentionMask : List (List Int)) (numAttentionHeads : ℕ) :
    Except String AlibiData :=
  let cp2 : ℕ := 2 ^ Nat.log2 numAttentionHeads
  let baseExp : ℚ := -((2 : ℚ) ^ ((3 : ℤ) - (Nat.log2 numAttentionHeads : ℤ)))
  let slopeExps : List ℚ := (List.range cp2).map (fun h => baseExp * ((h : ℚ) + 1))
  if cp2 ≠ numAttentionHeads then
    let extraBaseExp : ℚ := -((2 : ℚ) ^ ((3 : ℤ) - ((Nat.log2 numAttentionHeads : ℤ) + 1)))
    let numRemHeads : ℕ := min cp2 (numAttentionHeads - cp2)
    match jnpArange 1 (1 + 2 * (numRemHeads : ℤ)) 2 .dtypeClass with
    | .error e => .error e
    | .ok extraPower =>
      .ok ⟨slopeExps ++ extraPower.map (fun p => extraBaseExp * (p : ℚ)),
        attentionMask.map arangeTensorRow⟩
  else
    .ok ⟨slopeExps, attentionMask.map arangeTensorRow⟩

/-- The real value of one alibi bias entry: `2 ^ slopeExp * count`. -/
noncomputable def alibiEntry (e : ℚ) (a : Int) : ℝ :=
  (2 : ℝ) ^ (e : ℝ) * (a : ℝ)

/-- Supporting fact for the power-of-two path (where the function does
run): slopes are positive, so for a fixed head the bias is strictly
monotone in the valid-prior-token count — for non-padded positions it
strictly decreases as the query-to-key distance grows. -/
theorem alibiEntry_strict_decay (e : ℚ) (q d₁ d₂ : ℕ) (h₁ : d₁ < d₂) (h₂ : d₂ ≤ q) :
    alibiEntry e ((q : Int) - d₂) < alibiEntry e ((q : Int) - d₁) := by
  unfold alibiEntry
  have h2 : (0 : ℝ) < (2 : ℝ) ^ ((e : ℚ) : ℝ) := Real.rpow_pos_of_pos (by norm_num) _
  have hab : (((q : Int) - d₂ : Int) : ℝ) < (((q : Int) - d₁ : Int) : ℝ) := by
    have : ((q : Int) - d₂) < ((q : Int) - d₁) := by omega
    exact_mod_cast this
  exact mul_lt_mul_of_pos_left hab h2

/-- Supporting fact: on an all-ones (non-padded) mask row the
valid-prior-token counts are `0, 1, 2, ...` — the count at key position
`j` is `j`, so distance to a fixed query position decreases it. -/
theorem arangeTensorRow_ones (L : ℕ) :
    arangeTensorRow (List.replicate L (1 : Int)) = (List.range L).map Int.ofNat := by
  have hzip : ∀ (n : ℕ) (acc : Int),
      List.zipWith (fun c m => (c - 1) * m) (cumsumFrom acc (List.replicate n (1 : Int)))
        (List.replicate n (1 : Int)) = (List.range n).map (fun i => acc + Int.ofNat i) := by
    intro n
    induction n with
    | zero =>
      intro acc
      simp [cumsumFrom]
    | succ m ih =>
      intro acc
      rw [List.replicate_succ]
      simp only [cumsumFrom, List.zipWith_cons_cons, ih (acc + 1), List.range_succ_eq_map,
        List.map_cons, List.map_map]
      congr 1
      · simp
      · refine List.map_eq_map_iff.mpr fun i _ => ?_
        simp only [Function.comp_apply, Int.ofNat_eq_natCast, Nat.succ_eq_add_one]
        push_cast
        ring
  unfold arangeTensorRow
  rw [hzip L 0]
  refine List.map_eq_map_iff.mpr fun i _ => ?_
  ring

/-- C8 (code bug): for a non-power-of-two head count the correction
branch is taken and `built_bloom_alibi` raises a dtype `TypeError`
(the dtype class `jnp.dtype` is passed as `arange`'s dtype) instead of
computing the extra slopes and the decaying bias the claim describes.
`num_attention_heads = 3` (or Falcon's own default of 71) with an
all-ones mask exhibits it. -/
theorem built_bloom_alibi_non_pow2_raises :
    builtBloomAlibi [[1, 1, 1, 1]] 3 = .error "Cannot interpret dtype as a data type" := by
  simp [builtBloomAlibi, Nat.log2, jnpArange]

end EasyDelVerify
